import Mathlib

/-!
Verification of the rl_sdn_routing repository: a shallow embedding of the
Q-learning path-selection agent (src/rl_agent.py), the Ryu forwarding
controller (src/ryu_controller.py), the Mininet grid topology builder
(src/mininet_topology.py) and the telemetry monitor (scripts/monitor.py),
together with proofs about the claims of the specification.
-/

set_option maxHeartbeats 1000000
set_option linter.unusedVariables false

namespace RlSdn

/-! Association-list dictionaries modelling Python dict semantics:
assignment updates the value of an existing key in place, or appends a
new entry at the end (Python dicts preserve insertion order). -/

def dictInsert {κ α : Type} [DecidableEq κ] (k : κ) (v : α) : List (κ × α) → List (κ × α)
  | [] => [(k, v)]
  | (k0, v0) :: rest => if k0 = k then (k0, v) :: rest else (k0, v0) :: dictInsert k v rest

def dlookup {κ α : Type} [DecidableEq κ] (k : κ) : List (κ × α) → Option α
  | [] => none
  | (k0, v0) :: rest => if k0 = k then some v0 else dlookup k rest

theorem dlookup_dictInsert_self {κ α : Type} [DecidableEq κ] (k : κ) (v : α)
    (d : List (κ × α)) : dlookup k (dictInsert k v d) = some v := by
  induction d with
  | nil => simp [dictInsert, dlookup]
  | cons hd tl ih =>
    obtain ⟨k0, v0⟩ := hd
    by_cases h : k0 = k
    · simp [dictInsert, dlookup, h]
    · simp [dictInsert, dlookup, h, ih]

theorem dictInsert_keys_of_mem {κ α : Type} [DecidableEq κ] (k : κ) (v : α)
    (d : List (κ × α)) (h : (dlookup k d).isSome) :
    (dictInsert k v d).map Prod.fst = d.map Prod.fst := by
  induction d with
  | nil => simp [dlookup] at h
  | cons hd tl ih =>
    obtain ⟨k0, v0⟩ := hd
    by_cases hk : k0 = k
    · simp [dictInsert, hk]
    · simp [dlookup, hk] at h
      simp [dictInsert, hk, ih h]

theorem dlookup_append_right {κ α : Type} [DecidableEq κ] (k : κ)
    (d e : List (κ × α)) (h : dlookup k d = none) :
    dlookup k (d ++ e) = dlookup k e := by
  induction d with
  | nil => simp
  | cons hd tl ih =>
    obtain ⟨k0, v0⟩ := hd
    by_cases hk : k0 = k
    · simp [dlookup, hk] at h
    · simp [dlookup, hk] at h ⊢
      exact ih h

/-! JSON-ish request values as delivered by Flask request.get_json().
State vectors, actions and rewards in this system are flat JSON values
(numbers, strings, booleans, null, or flat lists of those), so list
payloads are modelled as lists of atoms. -/

inductive JAtom : Type
  | anull
  | abool (b : Bool)
  | anum (q : ℚ)
  | astr (s : String)
  deriving DecidableEq

inductive Jv : Type
  | jatom (a : JAtom)
  | jlist (l : List JAtom)
  deriving DecidableEq

def Jv.jnull : Jv := .jatom .anull

def Jv.jnum (q : ℚ) : Jv := .jatom (.anum q)

def Jv.jstr (s : String) : Jv := .jatom (.astr s)

def JAtom.truthy : JAtom → Bool
  | .anull => false
  | .abool b => b
  | .anum q => decide (q ≠ 0)
  | .astr s => decide (s ≠ "")

def Jv.truthy : Jv → Bool
  | .jatom a => a.truthy
  | .jlist l => decide (l ≠ [])

def JAtom.pyStr : JAtom → String
  | .anull => "None"
  | .abool b => if b then "True" else "False"
  | .anum q => toString q
  | .astr s => s

def Jv.pyStr : Jv → String
  | .jatom a => a.pyStr
  | .jlist l => "[" ++ String.intercalate ", " (l.map JAtom.pyStr) ++ "]"

def JAtom.num? : JAtom → Option ℚ
  | .anum q => some q
  | .abool b => some (if b then 1 else 0)
  | _ => none

def Jv.nums? : Jv → Option (List ℚ)
  | .jlist l => l.mapM JAtom.num?
  | _ => none

def Jv.num? : Jv → Option ℚ
  | .jatom a => a.num?
  | _ => none

/-! The Q-learning agent of src/rl_agent.py. The keras model is embedded as
an abstract scoring function: model.predict on a state vector returns a single
scalar, and the model is never trained by this code (model.fit is never
called), so it stays constant across requests. -/

structure Agent : Type where
  state_size : ℕ
  learning_rate : ℚ
  discount_factor : ℚ
  save_interval : ℕ
  possible_paths : List (String × List (List ℕ))
  q_table : List (String × List ℚ)
  model : List ℚ → ℚ
  recent_rewards : List ℚ
  total_steps : ℕ

/-- Python str of a list of switch ids, e.g. str([1, 2]) = "[1, 2]". -/
def pathRepr (p : List ℕ) : String :=
  "[" ++ String.intercalate ", " (p.map toString) ++ "]"

/-- Python max over a nonempty list (the empty case never occurs in the code). -/
def pyMax : List ℚ → ℚ
  | [] => 0
  | x :: xs => xs.foldl max x

def pyArgmaxAux : List ℚ → ℕ → ℚ → ℕ → ℕ
  | [], best, _, _ => best
  | x :: xs, best, bv, i => if bv < x then pyArgmaxAux xs i x (i + 1) else pyArgmaxAux xs best bv (i + 1)

/-- np.argmax: index of the first occurrence of the maximum value. -/
def pyArgmax : List ℚ → ℕ
  | [] => 0
  | x :: xs => pyArgmaxAux xs 0 x 1

/-- The q_table initialisation pattern used throughout rl_agent.py: insert a
zero vector of length state_size for a key not yet present. -/
def insertZerosIfMissing (qt : List (String × List ℚ)) (k : String) (n : ℕ) :
    List (String × List ℚ) :=
  if (dlookup k qt).isSome then qt else qt ++ [(k, List.replicate n 0)]

/-- QLearningAgent.update_q_table. The state argument is converted to an
array by the source but never used afterwards; current_q is read from the
table, next_max_q is the maximum of one model prediction of next_state per
q_table entry, and the entry is replaced by the blended vector. The reward
is appended and the step counter incremented. -/
def updateQTable (a : Agent) (state : Jv) (action : Jv) (reward : ℚ)
    (next_state : List ℚ) : Agent :=
  let astr := action.pyStr
  let qt := insertZerosIfMissing a.q_table astr a.state_size
  let current_q := (dlookup astr qt).getD []
  let next_max_q := pyMax (qt.map (fun _ => a.model next_state))
  let new_q := current_q.map (fun x =>
    (1 - a.learning_rate) * x + a.learning_rate * (reward + a.discount_factor * next_max_q))
  { a with
    q_table := dictInsert astr new_q qt,
    recent_rewards := a.recent_rewards ++ [reward],
    total_steps := a.total_steps + 1 }

/-- The per-candidate value estimates computed by QLearningAgent.get_action:
one model.predict(state) call per candidate path, none of them depending on
the candidate itself. -/
def getActionQValues (a : Agent) (nums : List ℚ) (paths : List (List ℕ)) : List ℚ :=
  paths.map (fun _ => a.model nums)

/-- QLearningAgent.get_action. Returns Except.error when model.predict
raises (non-numeric state); that happens on the first loop iteration, after
that iteration's q_table insertion has already been applied. -/
def getAction (a : Agent) (state : Jv) (src dst : String) :
    Except Unit (Option (List ℕ × ℕ)) × Agent :=
  let key := src ++ "->" ++ dst
  match dlookup key a.possible_paths with
  | none => (.ok none, a)
  | some paths =>
    if paths = [] then (.ok none, a)
    else
      match state.nums? with
      | some nums =>
        let qt := paths.foldl (fun qt p => insertZerosIfMissing qt (pathRepr p) a.state_size) a.q_table
        let qvals := getActionQValues a nums paths
        let idx := pyArgmax qvals
        (.ok (some (paths.getD idx [], idx)), { a with q_table := qt })
      | none =>
        (.error (), { a with q_table := insertZerosIfMissing a.q_table (pathRepr (paths.getD 0 [])) a.state_size })

/-! The /get_path and /update Flask handlers. A handler is modelled as a
function from the parsed request body (none when request.get_json() yields
no JSON object) and the agent state to the HTTP status code and the agent
state after the request. -/

structure GetPathReq : Type where
  src : Jv
  dst : Jv
  state : Jv

def getPath (data : Option GetPathReq) (ag : Agent) : ℕ × Agent :=
  match data with
  | none => (400, ag)
  | some req =>
    if ¬ req.src.truthy ∨ ¬ req.dst.truthy then (400, ag)
    else
      match req.state with
      | .jlist l =>
        if l.length ≠ ag.state_size then (400, ag)
        else
          let key := req.src.pyStr ++ "->" ++ req.dst.pyStr
          if (dlookup key ag.possible_paths).isNone then (400, ag)
          else
            match getAction ag req.state req.src.pyStr req.dst.pyStr with
            | (.error _, ag2) => (500, ag2)
            | (.ok none, ag2) => (400, ag2)
            | (.ok (some _), ag2) => (200, ag2)
      | _ => (400, ag)

structure UpdateReq : Type where
  state : Jv
  action : Jv
  reward : Jv
  next_state : Jv

/-- The /update handler. request.get_json() returning None makes data.get
raise, which the handler surfaces as a 500. The field-presence test uses
Python truthiness for state, action and next_state but an explicit
"is not None" test for the reward. Non-numeric next_state or reward makes
update_q_table raise after its initial q_table insertion. -/
def pyUpdate (data : Option UpdateReq) (ag : Agent) : ℕ × Agent :=
  match data with
  | none => (500, ag)
  | some req =>
    if ¬ (req.state.truthy ∧ req.action.truthy ∧ req.reward ≠ Jv.jnull ∧ req.next_state.truthy) then
      (400, ag)
    else
      match req.state with
      | .jlist l =>
        if l.length ≠ ag.state_size then (400, ag)
        else
          match req.next_state with
          | .jlist l2 =>
            if l2.length ≠ ag.state_size then (400, ag)
            else
              match req.next_state.nums?, req.reward.num? with
              | some ns, some r => (200, updateQTable ag req.state req.action r ns)
              | _, _ =>
                (500, { ag with q_table := insertZerosIfMissing ag.q_table req.action.pyStr ag.state_size })
          | _ => (400, ag)
      | _ => (400, ag)

/-! The Ryu forwarding controller of src/ryu_controller.py. -/

/-- An OFPMatch as built by this controller: optional ipv4 source and
destination plus the fields the controller always sets. The dict-style
match.get lookups used for the flow log read the ipv4 fields with default
"unknown". -/
structure OFMatch : Type where
  eth_type : Option ℕ
  ipv4_src : Option String
  ipv4_dst : Option String
  ip_proto : Option ℕ
  deriving DecidableEq

/-- OFPActionOutput(port), the only action kind this controller issues. -/
structure OFAction : Type where
  out_port : ℕ
  deriving DecidableEq

/-- One entry of flow_stats['flows']. -/
structure FlowRecord : Type where
  dpid : ℕ
  src_ip : String
  dst_ip : String
  actions : List String
  deriving DecidableEq

def actionRepr (a : OFAction) : String :=
  "OFPActionOutput(port=" ++ toString a.out_port ++ ")"

/-- The deduplication key (datapath.id, str(match), str(actions)); the string
representations are functions of the match and action values, so the key is
modelled by the values themselves. -/
abbrev FlowKey : Type := ℕ × OFMatch × List OFAction

/-- The controller state touched by add_flow. -/
structure CtrlState : Type where
  flow_count : ℕ
  flows : List FlowRecord
  existing_flows : List FlowKey

/-- SimpleSwitch13.add_flow: build the mod message, return early if the
(dpid, match, actions) key was already issued, otherwise send it, bump the
counter, log a FlowRecord and remember the key. -/
def addFlow (st : CtrlState) (dpid : ℕ) (priority : ℕ) (m : OFMatch)
    (actions : List OFAction) (idle_timeout : ℕ := 120) (hard_timeout : ℕ := 300) :
    CtrlState :=
  let flow_key : FlowKey := (dpid, m, actions)
  if flow_key ∈ st.existing_flows then st
  else
    { flow_count := st.flow_count + 1,
      flows := st.flows ++ [{ dpid := dpid,
                              src_ip := m.ipv4_src.getD "unknown",
                              dst_ip := m.ipv4_dst.getD "unknown",
                              actions := actions.map actionRepr }],
      existing_flows := st.existing_flows ++ [flow_key] }

/-! The controller's live topology graph (a networkx Graph of switch dpids
with a port attribute per edge) and the unweighted shortest-path search the
controller falls back to. nx.shortest_path on an unweighted graph returns a
path with the minimum number of hops, and raises NetworkXNoPath (caught by
_get_shortest_path, which then returns []) when no path exists. -/

structure Graph : Type where
  nodes : List ℕ
  edges : List (ℕ × ℕ × ℕ)

/-- Undirected adjacency, ignoring the port attribute. -/
def Graph.adj (g : Graph) (u v : ℕ) : Bool :=
  g.edges.any (fun e => (e.1 = u ∧ e.2.1 = v) ∨ (e.1 = v ∧ e.2.1 = u))

/-- Neighbours of u, read off the edge list. -/
def Graph.nbrs (g : Graph) (u : ℕ) : List ℕ :=
  g.edges.flatMap (fun e =>
    if e.1 = u then [e.2.1] else if e.2.1 = u then [e.1] else [])

/-- Every vertex mentioned by the graph (explicit nodes and edge endpoints). -/
def Graph.allNodes (g : Graph) : List ℕ :=
  g.nodes ++ g.edges.flatMap (fun e => [e.1, e.2.1])

/-- A walk through the graph from s to t, listed s first. -/
def isWalk (g : Graph) (p : List ℕ) (s t : ℕ) : Prop :=
  p.head? = some s ∧ p.getLast? = some t ∧ List.Chain' (fun u v => g.adj u v = true) p

/-- All reversed walks of n edges starting from s: each element lists the
current endpoint first and s last. -/
def walksN (g : Graph) (s : ℕ) : ℕ → List (List ℕ)
  | 0 => [[s]]
  | n + 1 =>
    (walksN g s n).flatMap (fun w =>
      match w with
      | [] => []
      | v :: rest => (g.nbrs v).map (fun u => u :: v :: rest))

/-- First reversed walk of exactly n edges from s ending at t, if any. -/
def findWalkTo (g : Graph) (s t : ℕ) (n : ℕ) : Option (List ℕ) :=
  (walksN g s n).find? (fun w => w.head? = some t)

/-- Search lengths 0, 1, ..., k in order and return the first hit. -/
def spUpTo (g : Graph) (s t : ℕ) : ℕ → Option (List ℕ)
  | 0 => findWalkTo g s t 0
  | k + 1 =>
    match spUpTo g s t k with
    | some w => some w
    | none => findWalkTo g s t (k + 1)

/-- The controller's _get_shortest_path: a minimum-hop path from s to t,
or [] when NetworkXNoPath is raised. A shortest walk repeats no vertex, so
searching up to the number of vertices of the graph is exhaustive. -/
def getShortestPath (g : Graph) (s t : ℕ) : List ℕ :=
  match spUpTo g s t g.allNodes.length with
  | some w => w.reverse
  | none => []

/-- The JSON object answered by the RL agent on /get_path, as consumed via
path_info.get('path', []); the path key may be absent. -/
structure AgentResp : Type where
  path : Option (List ℕ)

/-- path_info.get('path', []) if path_info else [], where a failed request
yields the empty dict (falsy). -/
def respPath : Option AgentResp → List ℕ
  | none => []
  | some r => r.path.getD []

/-- The path-selection logic shared verbatim by packet_in_handler,
_reroute_affected_flows and force_path_installation: take the agent's path,
fall back to _get_shortest_path when it is empty, and hand the result to
_install_path_flows only when non-empty. Returns the path passed to
_install_path_flows, or none when nothing is installed. -/
def chooseAndInstall (g : Graph) (s t : ℕ) (resp : Option AgentResp) :
    Option (List ℕ) :=
  let path := respPath resp
  let path := if path = [] then getShortestPath g s t else path
  if path = [] then none else some path

/-- The packet-in handler's path installation (ryu_controller.py lines
280-288), given already-resolved source and destination switches. -/
def packetInInstall (g : Graph) (srcSwitch dstSwitch : ℕ)
    (resp : Option AgentResp) : Option (List ℕ) :=
  chooseAndInstall g srcSwitch dstSwitch resp

/-- The per-flow reinstallation of _reroute_affected_flows (lines 139-151),
given already-resolved switches for one affected flow. -/
def rerouteInstall (g : Graph) (srcSwitch dstSwitch : ℕ)
    (resp : Option AgentResp) : Option (List ℕ) :=
  chooseAndInstall g srcSwitch dstSwitch resp

/-- The force_path API's path choice (lines 342-354): an explicit path from
the request body short-circuits the agent; otherwise agent then fallback. -/
def forcePathInstall (g : Graph) (srcSwitch dstSwitch : ℕ)
    (reqPath : List ℕ) (resp : Option AgentResp) : Option (List ℕ) :=
  if reqPath = [] then chooseAndInstall g srcSwitch dstSwitch resp
  else some reqPath

/-! The grid topology descriptor builder, GridTopo.generate_topology_info in
src/mininet_topology.py. -/

structure SwitchEntry : Type where
  name : String
  dpid : ℕ
  ports : List (String × ℕ)

structure HostEntry : Type where
  name : String
  ip : String
  mac : String
  connected_to : String

structure TLink : Type where
  src : String
  dst : String
  port : ℕ

/-- The builder's working state: the topology_info document under
construction plus the local port_counters dict. -/
structure GridState : Type where
  switches : List SwitchEntry
  hosts : List HostEntry
  links : List TLink
  pc : List (String × ℕ)

def sName (k : ℕ) : String := "s" ++ toString k

def hName (k : ℕ) : String := "h" ++ toString k

def setPort (sw : List SwitchEntry) (name portKey : String) (v : ℕ) : List SwitchEntry :=
  sw.map (fun e => if e.name = name then { e with ports := dictInsert portKey v e.ports } else e)

def setHostConn (hs : List HostEntry) (name conn : String) : List HostEntry :=
  hs.map (fun e => if e.name = name then { e with connected_to := conn } else e)

def pcGet (pc : List (String × ℕ)) (name : String) : ℕ :=
  (dlookup name pc).getD 0

/-- One iteration of the corner-attachment loop: record the host's switch,
give the switch a port towards the host, log the link, bump the counter. -/
def cornerStep (st : GridState) (host sw : String) : GridState :=
  let p := pcGet st.pc sw
  { switches := setPort st.switches sw host p,
    hosts := setHostConn st.hosts host sw,
    links := st.links ++ [⟨host, sw, p⟩],
    pc := dictInsert sw (p + 1) st.pc }

def corners (n : ℕ) : List (String × String) :=
  [(hName 1, sName 1), (hName 2, sName n),
   (hName 3, sName (n * (n - 1) + 1)), (hName 4, sName (n * n))]

def cornerPhase (n : ℕ) (st : GridState) : GridState :=
  (corners n).foldl (fun st hs => cornerStep st hs.1 hs.2) st

/-- Record one switch-to-switch grid link, with a port on each side. -/
def linkStep (st : GridState) (cur nxt : String) : GridState :=
  let pcur := pcGet st.pc cur
  let pnxt := pcGet st.pc nxt
  { switches := setPort (setPort st.switches cur nxt pcur) nxt cur pnxt,
    hosts := st.hosts,
    links := st.links ++ [⟨cur, nxt, pcur⟩],
    pc := dictInsert nxt (pnxt + 1) (dictInsert cur (pcur + 1) st.pc) }

/-- The body of the nested grid loop at row i, column j: a rightward link
when j < size-1, then a downward link when i < size-1. -/
def gridCell (n i j : ℕ) (st : GridState) : GridState :=
  let cur := sName (i * n + j + 1)
  let st1 := if j < n - 1 then linkStep st cur (sName (i * n + j + 2)) else st
  if i < n - 1 then linkStep st1 cur (sName ((i + 1) * n + j + 1)) else st1

def gridRow (n i : ℕ) (st : GridState) : GridState :=
  (List.range n).foldl (fun st j => gridCell n i j st) st

def gridPhase (n : ℕ) (st : GridState) : GridState :=
  (List.range n).foldl (fun st i => gridRow n i st) st

/-- The initial dict comprehensions: size*size switches with dpids 1..size²
and empty port maps, 4 hosts with empty connected_to, no links, all port
counters at 1. -/
def gridInit (n : ℕ) : GridState :=
  { switches := (List.range (n * n)).map (fun i => ⟨sName (i + 1), i + 1, []⟩),
    hosts := (List.range 4).map (fun i =>
      ⟨hName (i + 1), "10.0.0." ++ toString (i + 1),
       "00:00:00:00:00:0" ++ toString (i + 1), ""⟩),
    links := [],
    pc := (List.range (n * n)).map (fun i => (sName (i + 1), 1)) }

/-- GridTopo.generate_topology_info for grid size n. -/
def gridTopologyInfo (n : ℕ) : GridState :=
  gridPhase n (cornerPhase n (gridInit n))

/-! The telemetry monitor of scripts/monitor.py. Python strings are embedded
as lists of characters so that every parsing step is a structurally
recursive, kernel-computable function. -/

/-- Whitespace as recognised by Python str.strip / str.split. -/
def isPySpace (c : Char) : Bool :=
  c == ' ' || c == '\t' || c == '\n' || c == '\r' || c == '\x0b' || c == '\x0c'

/-- Python substring containment, sub in s. -/
def containsSub (sub : List Char) : List Char → Bool
  | [] => sub.isEmpty
  | c :: rest => sub.isPrefixOf (c :: rest) || containsSub sub rest

def findSubAux (sub : List Char) : List Char → ℕ → Option ℕ
  | [], i => if sub.isEmpty then some i else none
  | c :: rest, i => if sub.isPrefixOf (c :: rest) then some i else findSubAux sub rest (i + 1)

/-- Python s.find(sub, start), with -1 modelled as none. -/
def pyFind (s sub : List Char) (start : ℕ) : Option ℕ :=
  (findSubAux sub (s.drop start) 0).map (· + start)

/-- Python s.split(sep) for a predicate on single characters; empty pieces
are kept, as in str.split with an explicit separator. -/
def splitOnPred (p : Char → Bool) : List Char → List (List Char)
  | [] => [[]]
  | x :: xs =>
    match splitOnPred p xs with
    | [] => [[]]
    | h :: t => if p x then [] :: h :: t else (x :: h) :: t

def splitOnChar (c : Char) (s : List Char) : List (List Char) :=
  splitOnPred (fun x => x == c) s

/-- Python s.split() with no argument: split on whitespace runs, dropping
empty pieces. -/
def pySplitWs (s : List Char) : List (List Char) :=
  (splitOnPred isPySpace s).filter (fun w => ¬ w.isEmpty)

def pyStrip (s : List Char) : List Char :=
  ((s.dropWhile isPySpace).reverse.dropWhile isPySpace).reverse

def firstSplitAt (sep : List Char) : List Char → Option (List Char × List Char)
  | [] => none
  | c :: rest =>
    if sep.isPrefixOf (c :: rest) then some ([], (c :: rest).drop sep.length)
    else
      match firstSplitAt sep rest with
      | none => none
      | some (pre, post) => some (c :: pre, post)

def splitOnSubFuel (sep : List Char) : ℕ → List Char → List (List Char)
  | 0, s => [s]
  | fuel + 1, s =>
    match firstSplitAt sep s with
    | none => [s]
    | some (pre, post) => pre :: splitOnSubFuel sep fuel post

/-- Python s.split(sep) for a multi-character separator. -/
def splitOnSub (sep s : List Char) : List (List Char) :=
  splitOnSubFuel sep (s.length + 1) s

def parseDigits : List Char → Option ℕ
  | [] => none
  | c :: rest =>
    (c :: rest).foldl
      (fun acc ch => acc.bind (fun a => if ch.isDigit then some (a * 10 + (ch.toNat - 48)) else none))
      (some 0)

/-- Python int(s): surrounding whitespace, an optional sign, then digits.
Failure (ValueError) is none. -/
def pyInt? (s : List Char) : Option ℤ :=
  match pyStrip s with
  | '+' :: rest => (parseDigits rest).map (fun n => (n : ℤ))
  | '-' :: rest => (parseDigits rest).map (fun n => -(n : ℤ))
  | t => (parseDigits t).map (fun n => (n : ℤ))

/-- The key=value token loop of _parse_port_stats over one comma-split
segment: tokens without = are skipped, a token splitting into other than
exactly two pieces raises (ValueError, aborting the whole line, modelled as
none), a non-integer value is silently skipped. -/
def parseSegTokens (pre : List Char) (toks : List (List Char))
    (d : List (List Char × ℤ)) : Option (List (List Char × ℤ)) :=
  match toks with
  | [] => some d
  | st :: rest =>
    if containsSub ['='] st then
      match splitOnChar '=' (pyStrip st) with
      | [k, v] =>
        match pyInt? v with
        | some n => parseSegTokens pre rest (dictInsert (pre ++ k) n d)
        | none => parseSegTokens pre rest d
      | _ => none
    else parseSegTokens pre rest d

/-- NetworkMonitor._parse_port_stats on a single candidate line; none means
the line contributes nothing (fewer than two colon-parts, or an exception
caught by the per-line handler). -/
def parsePortLine (line : List Char) : Option (ℤ × List (List Char × ℤ)) :=
  let parts := splitOnChar ':' line
  if parts.length < 2 then none
  else do
    let tok ← (pySplitWs parts.headI).getLast?
    let pn ← pyInt? tok
    let stats_part := parts.getD 1 []
    let rx_stats ←
      if containsSub "rx".data stats_part then
        parseSegTokens "rx_".data (splitOnChar ',' ((splitOnSub "tx".data stats_part).headI)) []
      else some []
    let merged ←
      if containsSub "tx".data stats_part then
        match (splitOnSub "tx".data stats_part).get? 1 with
        | none => none
        | some seg =>
          (parseSegTokens "tx_".data (splitOnChar ',' seg) []).map
            (fun tx => tx.foldl (fun d kv => dictInsert kv.1 kv.2 d) rx_stats)
      else some rx_stats
    some (pn, merged)

/-- NetworkMonitor._parse_port_stats over the whole dump-ports output. -/
def parsePortStats (output : List Char) : List (ℤ × List (List Char × ℤ)) :=
  (splitOnChar '\n' output).foldl
    (fun acc line =>
      if containsSub "port".data line && containsSub "rx".data line then
        match parsePortLine line with
        | some (pn, d) => dictInsert pn d acc
        | none => acc
      else acc) []

/-- The n_packets / n_bytes extraction of _parse_flow_stats: the substring
from just past the token up to the next comma, or the next space when no
comma follows; when neither follows, or the substring is not an integer,
nothing is recorded. -/
def extractCount (line tok : List Char) : Option ℤ :=
  if containsSub tok line then
    match pyFind line tok 0 with
    | none => none
    | some idx =>
      let start := idx + tok.length
      let stop :=
        match pyFind line [','] start with
        | some e => some e
        | none => pyFind line [' '] start
      match stop with
      | none => none
      | some e => pyInt? ((line.take e).drop start)
  else none

structure FlowInfo : Type where
  line : List Char
  timestamp : ℤ
  n_packets : Option ℤ
  n_bytes : Option ℤ
  deriving DecidableEq

def parseFlowLine (now : ℤ) (line : List Char) : FlowInfo :=
  { line := pyStrip line,
    timestamp := now,
    n_packets := extractCount line "n_packets=".data,
    n_bytes := extractCount line "n_bytes=".data }

/-- NetworkMonitor._parse_flow_stats: one FlowInfo per line containing both
"priority" and "n_packets". -/
def parseFlowStats (now : ℤ) (output : List Char) : List FlowInfo :=
  (splitOnChar '\n' output).foldl
    (fun acc line =>
      if containsSub "priority".data line && containsSub "n_packets".data line then
        acc ++ [parseFlowLine now line]
      else acc) []

/-! Performance statistics: calculate_stats inside
NetworkMonitor._generate_performance_report, and the performance-sample
series with the operations that ever append to them. -/

noncomputable def npMean (l : List ℝ) : ℝ := l.sum / l.length

noncomputable def pyMinR : List ℝ → ℝ
  | [] => 0
  | x :: xs => xs.foldl min x

noncomputable def pyMaxR : List ℝ → ℝ
  | [] => 0
  | x :: xs => xs.foldl max x

noncomputable def npStd (l : List ℝ) : ℝ :=
  Real.sqrt ((l.map (fun x => (x - npMean l) ^ 2)).sum / l.length)

/-- calculate_stats: an empty series yields the four-key zero default (with
no count entry); a non-empty series yields all five statistics. -/
noncomputable def calculateStats (samples : List ℝ) : List (String × ℝ) :=
  match samples with
  | [] => [("avg", 0), ("min", 0), ("max", 0), ("std", 0)]
  | _ =>
    [("avg", npMean samples), ("min", pyMinR samples), ("max", pyMaxR samples),
     ("std", npStd samples), ("count", (samples.length : ℝ))]

structure PerfMetrics : Type where
  latency_samples : List ℝ
  throughput_samples : List ℝ
  packet_loss_samples : List ℝ
  jitter_samples : List ℝ

/-- Appending to a deque with maxlen 100. -/
def pushBounded (x : ℝ) (l : List ℝ) : List ℝ :=
  if l.length < 100 then l ++ [x] else l.drop 1 ++ [x]

/-- Every write any monitor thread ever performs on performance_metrics:
_monitor_connectivity appends a parsed ping latency, and
_collect_network_metrics appends one throughput and one packet-loss sample
per tick. No operation appends to jitter_samples. -/
inductive MonitorOp : Type
  | pingLatency (x : ℝ)
  | metricsTick (thr loss : ℝ)

def monStep : MonitorOp → PerfMetrics → PerfMetrics
  | .pingLatency x, pm => { pm with latency_samples := pushBounded x pm.latency_samples }
  | .metricsTick t l, pm =>
    { pm with
      throughput_samples := pushBounded t pm.throughput_samples,
      packet_loss_samples := pushBounded l pm.packet_loss_samples }

def monInit : PerfMetrics := ⟨[], [], [], []⟩

def monRun (ops : List MonitorOp) : PerfMetrics :=
  ops.foldl (fun pm op => monStep op pm) monInit

/-- The network_performance section of _generate_performance_report. -/
noncomputable def networkPerformance (pm : PerfMetrics) : List (String × List (String × ℝ)) :=
  [("latency_ms", calculateStats pm.latency_samples),
   ("throughput_bps", calculateStats pm.throughput_samples),
   ("packet_loss_rate", calculateStats pm.packet_loss_samples),
   ("jitter_ms", calculateStats pm.jitter_samples)]

/-! Helper lemmas about the agent's value-table update. -/

theorem dlookup_isSome_ne_nil {κ α : Type} [DecidableEq κ] {k : κ} {d : List (κ × α)}
    (h : (dlookup k d).isSome) : d ≠ [] := by
  intro hd
  subst hd
  simp [dlookup] at h

theorem foldl_max_map_const {β : Type} (c : ℚ) (l : List β) :
    ((l.map fun _ => c).foldl max c) = c := by
  induction l with
  | nil => rfl
  | cons x xs ih => simpa [max_self] using ih

theorem pyMax_map_const {β : Type} (c : ℚ) (l : List β) (h : l ≠ []) :
    pyMax (l.map fun _ => c) = c := by
  cases l with
  | nil => exact absurd rfl h
  | cons x xs => simpa [pyMax] using foldl_max_map_const c xs

theorem insertZerosIfMissing_of_mem (qt : List (String × List ℚ)) (k : String) (n : ℕ)
    (h : (dlookup k qt).isSome) : insertZerosIfMissing qt k n = qt := by
  simp [insertZerosIfMissing, h]

theorem updateQTable_lookup (a : Agent) (st act : Jv) (r : ℚ) (ns : List ℚ) (v : List ℚ)
    (hv : dlookup act.pyStr a.q_table = some v) :
    dlookup act.pyStr (updateQTable a st act r ns).q_table =
      some (v.map fun x =>
        (1 - a.learning_rate) * x + a.learning_rate * (r + a.discount_factor * a.model ns)) := by
  have hs : (dlookup act.pyStr a.q_table).isSome := by rw [hv]; rfl
  have hne : a.q_table ≠ [] := dlookup_isSome_ne_nil hs
  unfold updateQTable
  simp only [insertZerosIfMissing_of_mem _ _ _ hs, hv, Option.getD_some,
    pyMax_map_const _ _ hne, dlookup_dictInsert_self]

theorem updateQTable_learning_rate (a : Agent) (st act : Jv) (r : ℚ) (ns : List ℚ) :
    (updateQTable a st act r ns).learning_rate = a.learning_rate := rfl

theorem updateQTable_discount (a : Agent) (st act : Jv) (r : ℚ) (ns : List ℚ) :
    (updateQTable a st act r ns).discount_factor = a.discount_factor := rfl

theorem updateQTable_model (a : Agent) (st act : Jv) (r : ℚ) (ns : List ℚ) :
    (updateQTable a st act r ns).model = a.model := rfl

/-- Repeating the same /update call n times. -/
def repeatUpdate (a : Agent) (st act : Jv) (r : ℚ) (ns : List ℚ) : ℕ → Agent
  | 0 => a
  | n + 1 => updateQTable (repeatUpdate a st act r ns n) st act r ns

theorem repeatUpdate_fields (a : Agent) (st act : Jv) (r : ℚ) (ns : List ℚ) (n : ℕ) :
    (repeatUpdate a st act r ns n).learning_rate = a.learning_rate ∧
    (repeatUpdate a st act r ns n).discount_factor = a.discount_factor ∧
    (repeatUpdate a st act r ns n).model = a.model := by
  induction n with
  | zero => exact ⟨rfl, rfl, rfl⟩
  | succ n ih => exact ⟨ih.1, ih.2.1, ih.2.2⟩

theorem repeatUpdate_decay (a : Agent) (st act : Jv) (ns : List ℚ) (v : List ℚ)
    (hv : dlookup act.pyStr a.q_table = some v) (h0 : a.model ns = 0) (n : ℕ) :
    dlookup act.pyStr (repeatUpdate a st act 0 ns n).q_table =
      some (v.map fun x => (1 - a.learning_rate) ^ n * x) := by
  induction n with
  | zero =>
    simpa [repeatUpdate] using hv
  | succ n ih =>
    have hfields := repeatUpdate_fields a st act 0 ns n
    have step := updateQTable_lookup (repeatUpdate a st act 0 ns n) st act 0 ns _ ih
    rw [hfields.1, hfields.2.1, hfields.2.2, h0] at step
    show dlookup act.pyStr (updateQTable (repeatUpdate a st act 0 ns n) st act 0 ns).q_table = _
    rw [step, List.map_map]
    congr 1
    apply List.map_congr_left
    intro x hx
    simp [Function.comp]
    ring

/-- Component i of the q_table entry for key k. -/
def qComp (a : Agent) (k : String) (i : ℕ) : ℚ :=
  ((dlookup k a.q_table).getD []).getD i 0

/-- C1: one update_q_table call with reward r and next-state ns replaces the
entry holding v by (1 − α)·v + α·(r + γ·m) componentwise, with m the
next-state value estimate; and with r = 0 and m = 0 every component decays
monotonically to 0 for α ∈ (0,1). -/
theorem C1_update_q_table_blend (a : Agent) (st act : Jv) (r : ℚ) (ns : List ℚ)
    (v : List ℚ) (hv : dlookup act.pyStr a.q_table = some v) :
    dlookup act.pyStr (updateQTable a st act r ns).q_table =
      some (v.map fun x =>
        (1 - a.learning_rate) * x + a.learning_rate * (r + a.discount_factor * a.model ns)) ∧
    (0 < a.learning_rate → a.learning_rate < 1 → a.model ns = 0 →
      ∀ i, i < v.length →
        (∀ n : ℕ, qComp (repeatUpdate a st act 0 ns n) act.pyStr i =
          (1 - a.learning_rate) ^ n * v.getD i 0) ∧
        (∀ n : ℕ, |qComp (repeatUpdate a st act 0 ns (n + 1)) act.pyStr i| ≤
          |qComp (repeatUpdate a st act 0 ns n) act.pyStr i|) ∧
        (∀ ε : ℚ, 0 < ε → ∃ N : ℕ, ∀ n ≥ N,
          |qComp (repeatUpdate a st act 0 ns n) act.pyStr i| < ε)) := by
  constructor
  · exact updateQTable_lookup a st act r ns v hv
  · intro hpos hlt h0 i hi
    have h1 : 0 < 1 - a.learning_rate := by linarith
    have h2 : 1 - a.learning_rate < 1 := by linarith
    have hcomp : ∀ n : ℕ, qComp (repeatUpdate a st act 0 ns n) act.pyStr i =
        (1 - a.learning_rate) ^ n * v.getD i 0 := by
      intro n
      unfold qComp
      rw [repeatUpdate_decay a st act ns v hv h0 n, Option.getD_some,
        List.getD_eq_getElem _ _ (by simpa using hi), List.getElem_map,
        List.getD_eq_getElem _ _ hi]
    refine ⟨hcomp, ?_, ?_⟩
    · intro n
      rw [hcomp n, hcomp (n + 1), pow_succ,
        show (1 - a.learning_rate) ^ n * (1 - a.learning_rate) * v.getD i 0 =
          (1 - a.learning_rate) * ((1 - a.learning_rate) ^ n * v.getD i 0) by ring,
        abs_mul, abs_of_pos h1]
      nlinarith [abs_nonneg ((1 - a.learning_rate) ^ n * v.getD i 0)]
    · intro ε hε
      set vi := v.getD i 0 with hvi
      have hvp : 0 < |vi| + 1 := by positivity
      obtain ⟨N, hN⟩ := exists_pow_lt_of_lt_one (div_pos hε hvp) h2
      refine ⟨N, fun n hn => ?_⟩
      rw [hcomp n, abs_mul, abs_of_pos (pow_pos h1 n)]
      calc (1 - a.learning_rate) ^ n * |vi|
          ≤ (1 - a.learning_rate) ^ N * |vi| := by
            apply mul_le_mul_of_nonneg_right _ (abs_nonneg vi)
            exact pow_le_pow_of_le_one h1.le h2.le hn
        _ ≤ (1 - a.learning_rate) ^ N * (|vi| + 1) := by
            apply mul_le_mul_of_nonneg_left _ (pow_pos h1 N).le
            linarith
        _ < (ε / (|vi| + 1)) * (|vi| + 1) := by
            exact mul_lt_mul_of_pos_right hN hvp
        _ = ε := div_mul_cancel₀ ε hvp.ne'

/-- A concrete agent used to instantiate hypotheses of the agent theorems. -/
def agentW : Agent :=
  { state_size := 2, learning_rate := 1/2, discount_factor := 9/10, save_interval := 10,
    possible_paths := [("1->4", [[1, 2, 4], [1, 3, 4]])],
    q_table := [("p", [1, 1])],
    model := fun _ => 0, recent_rewards := [], total_steps := 0 }

/-- C1 witness: the hypotheses of C1_update_q_table_blend hold at a concrete
agent and the conclusion follows by applying the theorem there. -/
theorem C1_update_q_table_blend_witness :
    dlookup (Jv.jstr "p").pyStr agentW.q_table = some [1, 1] ∧
    (dlookup (Jv.jstr "p").pyStr (updateQTable agentW Jv.jnull (Jv.jstr "p") 3 [0, 0]).q_table =
      some (([1, 1] : List ℚ).map fun x =>
        (1 - agentW.learning_rate) * x +
          agentW.learning_rate * (3 + agentW.discount_factor * agentW.model [0, 0])) ∧
    (0 < agentW.learning_rate → agentW.learning_rate < 1 → agentW.model [0, 0] = 0 →
      ∀ i, i < ([1, 1] : List ℚ).length →
        (∀ n : ℕ, qComp (repeatUpdate agentW Jv.jnull (Jv.jstr "p") 0 [0, 0] n) (Jv.jstr "p").pyStr i =
          (1 - agentW.learning_rate) ^ n * ([1, 1] : List ℚ).getD i 0) ∧
        (∀ n : ℕ, |qComp (repeatUpdate agentW Jv.jnull (Jv.jstr "p") 0 [0, 0] (n + 1)) (Jv.jstr "p").pyStr i| ≤
          |qComp (repeatUpdate agentW Jv.jnull (Jv.jstr "p") 0 [0, 0] n) (Jv.jstr "p").pyStr i|) ∧
        (∀ ε : ℚ, 0 < ε → ∃ N : ℕ, ∀ n ≥ N,
          |qComp (repeatUpdate agentW Jv.jnull (Jv.jstr "p") 0 [0, 0] n) (Jv.jstr "p").pyStr i| < ε))) :=
  ⟨by rfl, C1_update_q_table_blend agentW Jv.jnull (Jv.jstr "p") 3 [0, 0] [1, 1] (by rfl)⟩

theorem pyArgmaxAux_replicate (c : ℚ) :
    ∀ (n : ℕ) (b i : ℕ), pyArgmaxAux (List.replicate n c) b c i = b := by
  intro n
  induction n with
  | zero => intro b i; rfl
  | succ n ih => intro b i; simpa [pyArgmaxAux] using ih b (i + 1)

theorem pyArgmax_replicate (c : ℚ) (n : ℕ) :
    pyArgmax (List.replicate n c) = 0 := by
  cases n with
  | zero => rfl
  | succ n => simpa [pyArgmax, List.replicate_succ] using pyArgmaxAux_replicate c n 0 1

theorem pyArgmax_cons_replicate (c : ℚ) (n : ℕ) :
    pyArgmax (c :: List.replicate n c) = 0 := by
  simpa [pyArgmax] using pyArgmaxAux_replicate c n 0 1

/-- C2: when the src->dst pair is known with a non-empty candidate list,
every candidate's value estimate is the same model prediction of the state
vector alone, and get_action returns the first candidate with index 0. -/
theorem C2_get_action_first_candidate (a : Agent) (state : Jv) (src dst : String)
    (paths : List (List ℕ)) (nums : List ℚ)
    (hp : dlookup (src ++ "->" ++ dst) a.possible_paths = some paths)
    (hne : paths ≠ []) (hnums : state.nums? = some nums) :
    getActionQValues a nums paths = List.replicate paths.length (a.model nums) ∧
    (getAction a state src dst).1 = .ok (some (paths.headI, 0)) := by
  constructor
  · simp [getActionQValues, List.map_const']
  · cases paths with
    | nil => exact absurd rfl hne
    | cons p ps =>
      simp [getAction, hp, hnums, getActionQValues, List.map_const',
        pyArgmax_cons_replicate, List.headI]

/-- C2 witness: a concrete selection request returns the first candidate
with action index 0. -/
theorem C2_get_action_first_candidate_witness :
    dlookup ("1" ++ "->" ++ "4") agentW.possible_paths = some [[1, 2, 4], [1, 3, 4]] ∧
    ([[1, 2, 4], [1, 3, 4]] : List (List ℕ)) ≠ [] ∧
    (Jv.jlist [.anum 0, .anum 0]).nums? = some [0, 0] ∧
    (getActionQValues agentW [0, 0] [[1, 2, 4], [1, 3, 4]] =
      List.replicate ([[1, 2, 4], [1, 3, 4]] : List (List ℕ)).length (agentW.model [0, 0]) ∧
    (getAction agentW (Jv.jlist [.anum 0, .anum 0]) "1" "4").1 =
      .ok (some (([[1, 2, 4], [1, 3, 4]] : List (List ℕ)).headI, 0))) :=
  ⟨by rfl, by decide, by rfl,
   C2_get_action_first_candidate agentW (Jv.jlist [.anum 0, .anum 0]) "1" "4"
     [[1, 2, 4], [1, 3, 4]] [0, 0] (by rfl) (by decide) (by rfl)⟩

/-- C5: a /get_path request whose state is not a list of length state_size
gets a 400 and leaves the agent (in particular its value table) unchanged,
and so does a request whose src->dst pair is absent from possible_paths. -/
theorem C5_get_path_validation (req : GetPathReq) (ag : Agent) :
    ((¬ ∃ l, req.state = Jv.jlist l ∧ l.length = ag.state_size) →
      getPath (some req) ag = (400, ag)) ∧
    (∀ l, req.state = Jv.jlist l → l.length = ag.state_size →
      dlookup (req.src.pyStr ++ "->" ++ req.dst.pyStr) ag.possible_paths = none →
      getPath (some req) ag = (400, ag)) := by
  constructor
  · intro hbad
    by_cases hsd : ¬ req.src.truthy ∨ ¬ req.dst.truthy
    · simp only [getPath]
      rw [if_pos hsd]
    · simp only [getPath]
      rw [if_neg hsd]
      cases hstate : req.state with
      | jatom a => rfl
      | jlist l =>
        have hlen : l.length ≠ ag.state_size := fun h => hbad ⟨l, hstate, h⟩
        simp [hlen]
  · intro l hstate hlen hkey
    by_cases hsd : ¬ req.src.truthy ∨ ¬ req.dst.truthy
    · simp only [getPath]
      rw [if_pos hsd]
    · simp only [getPath]
      rw [if_neg hsd]
      rw [hstate]
      simp [hlen, hkey]

/-- C5 witness: a wrong-length state and an unknown pair each yield 400 with
the agent unchanged. -/
theorem C5_get_path_validation_witness :
    getPath (some ⟨Jv.jstr "1", Jv.jstr "4", Jv.jlist [.anum 0]⟩) agentW = (400, agentW) ∧
    getPath (some ⟨Jv.jstr "9", Jv.jstr "9", Jv.jlist [.anum 0, .anum 0]⟩) agentW = (400, agentW) :=
  ⟨(C5_get_path_validation ⟨Jv.jstr "1", Jv.jstr "4", Jv.jlist [.anum 0]⟩ agentW).1
     (by rintro ⟨l, h, hlen⟩; cases h; exact absurd hlen (by decide)),
   (C5_get_path_validation ⟨Jv.jstr "9", Jv.jstr "9", Jv.jlist [.anum 0, .anum 0]⟩ agentW).2
     [.anum 0, .anum 0] rfl (by decide) (by rfl)⟩

/-- C10: a /update request whose action field is falsy (for example the
number 0 or the empty string) is rejected with 400 "Missing required
fields" and leaves the agent unchanged, while a zero reward with a truthy
action is accepted and processed normally. -/
theorem C10_update_falsy_action (req : UpdateReq) (ag : Agent) :
    (req.action.truthy = false → pyUpdate (some req) ag = (400, ag)) ∧
    (∀ l l2 ns, req.state = Jv.jlist l → l.length = ag.state_size →
      req.next_state = Jv.jlist l2 → l2.length = ag.state_size →
      req.state.truthy = true → req.action.truthy = true →
      req.reward = Jv.jnum 0 → req.next_state.nums? = some ns →
      pyUpdate (some req) ag = (200, updateQTable ag req.state req.action 0 ns) ∧
      (updateQTable ag req.state req.action 0 ns).total_steps = ag.total_steps + 1 ∧
      (updateQTable ag req.state req.action 0 ns).recent_rewards = ag.recent_rewards ++ [0]) := by
  constructor
  · intro hfalsy
    simp [pyUpdate, hfalsy]
  · intro l l2 ns hstate hlen hnext hlen2 hst htr hrw hns
    have hnn : req.reward ≠ Jv.jnull := by rw [hrw]; simp [Jv.jnum, Jv.jnull]
    have hlne : l ≠ [] := by
      rw [hstate] at hst
      simpa [Jv.truthy] using hst
    have hss : ag.state_size ≠ 0 := by
      rw [← hlen]
      simpa using hlne
    have hl2 : l2 ≠ [] := by
      intro h
      rw [h] at hlen2
      exact hss hlen2.symm
    rw [hnext] at hns
    have hnt2 : (Jv.jlist l2).truthy = true := by simp [Jv.truthy, hl2]
    have hst2 : (Jv.jlist l).truthy = true := by simp [Jv.truthy, hlne]
    refine ⟨?_, rfl, rfl⟩
    simp only [pyUpdate, hstate, hnext, hlen, hlen2, hrw, hns]
    rw [if_neg]
    · simp [Jv.num?, Jv.jnum, JAtom.num?]
    · simp [hst2, htr, hnt2, Jv.jnum, Jv.jnull]

/-- C10 witness: a concrete request with action 0 is rejected as missing,
while a zero reward with a truthy action is processed. -/
theorem C10_update_falsy_action_witness :
    (Jv.jnum 0).truthy = false ∧
    pyUpdate (some ⟨Jv.jlist [.anum 0, .anum 0], Jv.jnum 0, Jv.jnum 1,
      Jv.jlist [.anum 0, .anum 0]⟩) agentW = (400, agentW) ∧
    (pyUpdate (some ⟨Jv.jlist [.anum 0, .anum 0], Jv.jstr "p", Jv.jnum 0,
        Jv.jlist [.anum 0, .anum 0]⟩) agentW =
      (200, updateQTable agentW (Jv.jlist [.anum 0, .anum 0]) (Jv.jstr "p") 0 [0, 0]) ∧
    (updateQTable agentW (Jv.jlist [.anum 0, .anum 0]) (Jv.jstr "p") 0 [0, 0]).total_steps =
      agentW.total_steps + 1 ∧
    (updateQTable agentW (Jv.jlist [.anum 0, .anum 0]) (Jv.jstr "p") 0 [0, 0]).recent_rewards =
      agentW.recent_rewards ++ [0]) :=
  ⟨by decide,
   (C10_update_falsy_action ⟨Jv.jlist [.anum 0, .anum 0], Jv.jnum 0, Jv.jnum 1,
      Jv.jlist [.anum 0, .anum 0]⟩ agentW).1 (by decide),
   (C10_update_falsy_action ⟨Jv.jlist [.anum 0, .anum 0], Jv.jstr "p", Jv.jnum 0,
      Jv.jlist [.anum 0, .anum 0]⟩ agentW).2
     [.anum 0, .anum 0] [.anum 0, .anum 0] [0, 0] rfl (by decide) rfl (by decide)
     (by decide) (by decide) rfl (by rfl)⟩

/-- C4: issuing add_flow twice with an identical deduplication key, starting
from a state where the key is not yet installed, increments the flow count
by exactly 1 and appends exactly one FlowRecord. -/
theorem C4_add_flow_dedup (st : CtrlState) (dpid priority : ℕ) (m : OFMatch)
    (acts : List OFAction) (idle hard : ℕ)
    (hfresh : ((dpid, m, acts) : FlowKey) ∉ st.existing_flows) :
    (addFlow (addFlow st dpid priority m acts idle hard) dpid priority m acts idle hard).flow_count =
      st.flow_count + 1 ∧
    (addFlow (addFlow st dpid priority m acts idle hard) dpid priority m acts idle hard).flows =
      st.flows ++ [{ dpid := dpid, src_ip := m.ipv4_src.getD "unknown",
                     dst_ip := m.ipv4_dst.getD "unknown", actions := acts.map actionRepr }] := by
  constructor <;> simp [addFlow, hfresh]

def ctrlW : CtrlState := ⟨0, [], []⟩

def matchW : OFMatch := ⟨some 2048, some "10.0.0.1", some "10.0.0.2", some 6⟩

/-- C4 witness: a concrete double installation from the empty controller
state. -/
theorem C4_add_flow_dedup_witness :
    (((1, matchW, [⟨3⟩]) : FlowKey) ∉ ctrlW.existing_flows) ∧
    ((addFlow (addFlow ctrlW 1 10 matchW [⟨3⟩] 120 300) 1 10 matchW [⟨3⟩] 120 300).flow_count =
      ctrlW.flow_count + 1 ∧
    (addFlow (addFlow ctrlW 1 10 matchW [⟨3⟩] 120 300) 1 10 matchW [⟨3⟩] 120 300).flows =
      ctrlW.flows ++ [{ dpid := 1, src_ip := matchW.ipv4_src.getD "unknown",
                        dst_ip := matchW.ipv4_dst.getD "unknown",
                        actions := [OFAction.mk 3].map actionRepr }]) :=
  ⟨by simp [ctrlW],
   C4_add_flow_dedup ctrlW 1 10 matchW [⟨3⟩] 120 300 (by simp [ctrlW])⟩

/-! Correctness of the embedded unweighted shortest-path search. -/

theorem Graph.adj_symm (g : Graph) (u v : ℕ) : g.adj u v = g.adj v u := by
  simp only [Graph.adj]
  congr 1
  funext e
  exact decide_eq_decide.mpr (by tauto)

theorem mem_nbrs {g : Graph} {u v : ℕ} : v ∈ g.nbrs u ↔ g.adj u v = true := by
  simp only [Graph.nbrs, List.mem_flatMap, Graph.adj, List.any_eq_true, decide_eq_true_eq]
  constructor
  · rintro ⟨e, he, hv⟩
    by_cases h1 : e.1 = u
    · simp only [h1, if_true, List.mem_singleton] at hv
      exact ⟨e, he, Or.inl ⟨h1, hv.symm⟩⟩
    · by_cases h2 : e.2.1 = u
      · simp only [h1, if_false, h2, if_true, List.mem_singleton] at hv
        exact ⟨e, he, Or.inr ⟨hv.symm, h2⟩⟩
      · simp [h1, h2] at hv
  · rintro ⟨e, he, h | h⟩
    · exact ⟨e, he, by simp [h.1, h.2]⟩
    · refine ⟨e, he, ?_⟩
      by_cases h1 : e.1 = u
      · have hvu : v = u := h.1 ▸ h1
        simp only [h1, if_true, List.mem_singleton]
        rw [hvu, ← h.2]
      · simp only [h1, if_false, h.2, if_true, List.mem_singleton]
        exact h.1.symm

theorem adj_mem_allNodes {g : Graph} {u v : ℕ} (h : g.adj u v = true) :
    u ∈ g.allNodes ∧ v ∈ g.allNodes := by
  simp only [Graph.adj, List.any_eq_true, decide_eq_true_eq] at h
  obtain ⟨e, he, h | h⟩ := h <;>
    constructor <;>
      · simp only [Graph.allNodes, List.mem_append, List.mem_flatMap]
        right
        exact ⟨e, he, by simp [← h.1, ← h.2]⟩

theorem walksN_sound {g : Graph} {s : ℕ} :
    ∀ {n : ℕ} {w : List ℕ}, w ∈ walksN g s n →
      w.length = n + 1 ∧ w.getLast? = some s ∧
        List.Chain' (fun u v => g.adj u v = true) w := by
  intro n
  induction n with
  | zero =>
    intro w hw
    simp only [walksN, List.mem_singleton] at hw
    subst hw
    exact ⟨rfl, rfl, List.chain'_singleton s⟩
  | succ n ih =>
    intro w hw
    simp only [walksN, List.mem_flatMap] at hw
    obtain ⟨w0, hw0, hmem⟩ := hw
    obtain ⟨hlen, hlast, hchain⟩ := ih hw0
    cases w0 with
    | nil => simp at hlen
    | cons v rest =>
      simp only [List.mem_map] at hmem
      obtain ⟨u, hu, rfl⟩ := hmem
      have hadj : g.adj u v = true := by
        have := mem_nbrs.mp hu
        rwa [Graph.adj_symm] at this
      refine ⟨by simpa using hlen, ?_, ?_⟩
      · rw [List.getLast?_cons_cons]
        exact hlast
      · exact List.chain'_cons.mpr ⟨hadj, hchain⟩

theorem walksN_complete {g : Graph} {s : ℕ} :
    ∀ {n : ℕ} {w : List ℕ}, w.length = n + 1 → w.getLast? = some s →
      List.Chain' (fun u v => g.adj u v = true) w → w ∈ walksN g s n := by
  intro n
  induction n with
  | zero =>
    intro w hlen hlast hchain
    match w, hlen with
    | [x], _ =>
      simp only [List.getLast?_singleton, Option.some_inj] at hlast
      subst hlast
      simp [walksN]
  | succ n ih =>
    intro w hlen hlast hchain
    match w, hlen with
    | u :: v :: rest, hlen =>
      have hadj : g.adj u v = true := (List.chain'_cons.mp hchain).1
      have htail : (v :: rest) ∈ walksN g s n := by
        apply ih (by simpa using hlen) _ (List.chain'_cons.mp hchain).2
        rw [List.getLast?_cons_cons] at hlast
        exact hlast
      simp only [walksN, List.mem_flatMap]
      refine ⟨v :: rest, htail, ?_⟩
      simp only [List.mem_map]
      refine ⟨u, ?_, rfl⟩
      rw [mem_nbrs, Graph.adj_symm]
      exact hadj

theorem findWalkTo_some {g : Graph} {s t : ℕ} {n : ℕ} {w : List ℕ}
    (h : findWalkTo g s t n = some w) :
    w ∈ walksN g s n ∧ w.head? = some t := by
  have hmem := List.mem_of_find?_eq_some h
  have hpred := List.find?_some h
  simp only [decide_eq_true_eq] at hpred
  exact ⟨hmem, hpred⟩

theorem findWalkTo_none {g : Graph} {s t : ℕ} {n : ℕ}
    (h : findWalkTo g s t n = none) :
    ∀ w ∈ walksN g s n, w.head? ≠ some t := by
  intro w hw
  have := List.find?_eq_none.mp h w hw
  simpa using this

theorem spUpTo_none {g : Graph} {s t : ℕ} :
    ∀ {k : ℕ}, spUpTo g s t k = none → ∀ m ≤ k, findWalkTo g s t m = none := by
  intro k
  induction k with
  | zero =>
    intro h m hm
    interval_cases m
    exact h
  | succ k ih =>
    intro h m hm
    simp only [spUpTo] at h
    rcases hk : spUpTo g s t k with _ | w
    · rw [hk] at h
      rcases Nat.lt_or_ge m (k + 1) with hlt | hge
      · exact ih hk m (Nat.lt_succ_iff.mp hlt)
      · have : m = k + 1 := le_antisymm hm hge
        subst this
        exact h
    · rw [hk] at h
      exact absurd h (by simp)

theorem spUpTo_some {g : Graph} {s t : ℕ} :
    ∀ {k : ℕ} {w : List ℕ}, spUpTo g s t k = some w →
      ∃ n ≤ k, findWalkTo g s t n = some w ∧ ∀ m < n, findWalkTo g s t m = none := by
  intro k
  induction k with
  | zero =>
    intro w h
    exact ⟨0, le_refl 0, h, by omega⟩
  | succ k ih =>
    intro w h
    simp only [spUpTo] at h
    rcases hk : spUpTo g s t k with _ | w0
    · rw [hk] at h
      refine ⟨k + 1, le_refl _, h, ?_⟩
      intro m hm
      exact spUpTo_none hk m (Nat.lt_succ_iff.mp hm)
    · rw [hk] at h
      obtain ⟨n, hn, hfind, hmin⟩ := ih hk
      simp only [Option.some_inj] at h
      subst h
      exact ⟨n, hn.trans (Nat.le_succ k), hfind, hmin⟩

theorem chain_mem_allNodes {g : Graph} :
    ∀ (q : List ℕ), List.Chain' (fun u v => g.adj u v = true) q → 2 ≤ q.length →
      ∀ v ∈ q, v ∈ g.allNodes := by
  intro q
  induction q with
  | nil => intro _ h; simp at h
  | cons a q ih =>
    intro hchain hlen v hv
    cases q with
    | nil => simp at hlen
    | cons b q2 =>
      have hab : g.adj a b = true := (List.chain'_cons.mp hchain).1
      rcases List.mem_cons.mp hv with rfl | hv2
      · exact (adj_mem_allNodes hab).1
      · cases q2 with
        | nil =>
          have hvb : v = b := by simpa using hv2
          subst hvb
          exact (adj_mem_allNodes hab).2
        | cons c q3 =>
          exact ih (List.chain'_cons.mp hchain).2 (by simp) v hv2

theorem isWalk_reverse_mem_walksN {g : Graph} {q : List ℕ} {s t : ℕ}
    (hw : isWalk g q s t) :
    q.reverse ∈ walksN g s (q.length - 1) ∧ q.reverse.head? = some t := by
  obtain ⟨hqh, hql, hqc⟩ := hw
  have hne : q ≠ [] := by intro h; subst h; simp at hqh
  have hpos : 0 < q.length := List.length_pos.mpr hne
  have hlen : q.reverse.length = (q.length - 1) + 1 := by
    simp only [List.length_reverse]
    omega
  refine ⟨walksN_complete hlen ?_ ?_, ?_⟩
  · rw [List.getLast?_reverse]
    exact hqh
  · rw [List.chain'_reverse]
    exact hqc.imp (fun a b hab => by
      show g.adj b a = true
      rwa [Graph.adj_symm g b a])
  · rw [List.head?_reverse]
    exact hql

theorem getShortestPath_sound {g : Graph} {s t : ℕ} {p : List ℕ}
    (h : getShortestPath g s t = p) (hne : p ≠ []) :
    isWalk g p s t ∧ ∀ q, isWalk g q s t → p.length ≤ q.length := by
  unfold getShortestPath at h
  rcases hsp : spUpTo g s t g.allNodes.length with _ | w
  · rw [hsp] at h
    exact absurd h.symm hne
  · rw [hsp] at h
    obtain ⟨n, hnk, hfind, hmin⟩ := spUpTo_some hsp
    obtain ⟨hmem, hhead⟩ := findWalkTo_some hfind
    obtain ⟨hlen, hlast, hchain⟩ := walksN_sound hmem
    subst h
    constructor
    · refine ⟨?_, ?_, ?_⟩
      · rw [List.head?_reverse]
        exact hlast
      · rw [List.getLast?_reverse]
        exact hhead
      · rw [List.chain'_reverse]
        exact hchain.imp (fun a b hab => by
          show g.adj b a = true
          rwa [Graph.adj_symm g b a])
    · intro q hq
      by_contra hcon
      push_neg at hcon
      have hq1 : q ≠ [] := by
        intro hq0
        subst hq0
        simp [isWalk] at hq
      have hqpos : 0 < q.length := List.length_pos.mpr hq1
      have hwl : w.reverse.length = n + 1 := by
        simpa using hlen
      have hmn : q.length - 1 < n := by omega
      obtain ⟨hqmem, hqhead⟩ := isWalk_reverse_mem_walksN hq
      exact findWalkTo_none (hmin _ hmn) q.reverse hqmem hqhead

theorem getShortestPath_complete {g : Graph} {s t : ℕ}
    (hex : ∃ q, isWalk g q s t ∧ q.Nodup) : getShortestPath g s t ≠ [] := by
  obtain ⟨q, hq, hnd⟩ := hex
  have hq1 : q ≠ [] := by
    intro hq0
    subst hq0
    simp [isWalk] at hq
  have hqpos : 0 < q.length := List.length_pos.mpr hq1
  have hbound : q.length - 1 ≤ g.allNodes.length := by
    rcases Nat.lt_or_ge q.length 2 with hsmall | hbig
    · omega
    · have hsub : ∀ v ∈ q, v ∈ g.allNodes := chain_mem_allNodes q hq.2.2 hbig
      have := (List.subperm_of_subset hnd hsub).length_le
      omega
  obtain ⟨hqmem, hqhead⟩ := isWalk_reverse_mem_walksN hq
  intro hempty
  unfold getShortestPath at hempty
  rcases hsp : spUpTo g s t g.allNodes.length with _ | w
  · have hfn := spUpTo_none hsp (q.length - 1) hbound
    exact findWalkTo_none hfn q.reverse hqmem hqhead
  · rw [hsp] at hempty
    obtain ⟨n, hnk, hfind, hmin⟩ := spUpTo_some hsp
    obtain ⟨hmem, hhead⟩ := findWalkTo_some hfind
    obtain ⟨hlen, hlast, hchain⟩ := walksN_sound hmem
    have : w.reverse ≠ [] := by
      intro hw0
      have : w = [] := by simpa using hw0
      subst this
      simp at hlen
    exact this hempty

/-- C3: whenever the agent request fails or returns an empty path — in the
packet-in handler, in reroute handling and in the force-path API alike — the
controller installs exactly the unweighted (hop-count) shortest path over
its live topology graph between the same switches, and installs nothing
when no path exists. -/
theorem C3_controller_fallback (g : Graph) (s t : ℕ) (resp : Option AgentResp)
    (reqPath : List ℕ) (hs : s ∈ g.nodes) (ht : t ∈ g.nodes)
    (hfail : respPath resp = []) (hreq : reqPath = []) :
    (packetInInstall g s t resp = rerouteInstall g s t resp ∧
     packetInInstall g s t resp = forcePathInstall g s t reqPath resp) ∧
    (∀ p, packetInInstall g s t resp = some p →
      p = getShortestPath g s t ∧ isWalk g p s t ∧
      ∀ q, isWalk g q s t → p.length ≤ q.length) ∧
    (packetInInstall g s t resp = none → ¬ ∃ q, isWalk g q s t ∧ q.Nodup) ∧
    ((∃ q, isWalk g q s t ∧ q.Nodup) → ∃ p, packetInInstall g s t resp = some p) := by
  have hchoose : chooseAndInstall g s t resp =
      if getShortestPath g s t = [] then none else some (getShortestPath g s t) := by
    simp [chooseAndInstall, hfail]
  refine ⟨⟨rfl, ?_⟩, ?_, ?_, ?_⟩
  · simp [packetInInstall, forcePathInstall, hreq]
  · intro p hp
    rw [show packetInInstall g s t resp = chooseAndInstall g s t resp from rfl, hchoose] at hp
    by_cases hsp : getShortestPath g s t = []
    · simp [hsp] at hp
    · simp only [hsp, if_false, Option.some_inj] at hp
      subst hp
      obtain ⟨hw, hmin⟩ := getShortestPath_sound rfl hsp
      exact ⟨rfl, hw, hmin⟩
  · intro hnone hex
    rw [show packetInInstall g s t resp = chooseAndInstall g s t resp from rfl, hchoose] at hnone
    by_cases hsp : getShortestPath g s t = []
    · exact getShortestPath_complete hex hsp
    · simp [hsp] at hnone
  · intro hex
    have hsp := getShortestPath_complete hex
    rw [show packetInInstall g s t resp = chooseAndInstall g s t resp from rfl, hchoose]
    exact ⟨getShortestPath g s t, by simp [hsp]⟩

def graphW : Graph := ⟨[1, 2, 3], [(1, 2, 2), (2, 3, 2)]⟩

/-- C3 witness: on a concrete three-switch line graph with an unreachable
agent, the fallback behaviour holds. -/
theorem C3_controller_fallback_witness :
    (1 ∈ graphW.nodes) ∧ (3 ∈ graphW.nodes) ∧ respPath none = [] ∧
    ((packetInInstall graphW 1 3 none = rerouteInstall graphW 1 3 none ∧
      packetInInstall graphW 1 3 none = forcePathInstall graphW 1 3 [] none) ∧
     (∀ p, packetInInstall graphW 1 3 none = some p →
       p = getShortestPath graphW 1 3 ∧ isWalk graphW p 1 3 ∧
       ∀ q, isWalk graphW q 1 3 → p.length ≤ q.length) ∧
     (packetInInstall graphW 1 3 none = none → ¬ ∃ q, isWalk graphW q 1 3 ∧ q.Nodup) ∧
     ((∃ q, isWalk graphW q 1 3 ∧ q.Nodup) → ∃ p, packetInInstall graphW 1 3 none = some p)) :=
  ⟨by decide, by decide, rfl,
   C3_controller_fallback graphW 1 3 none [] (by decide) (by decide) rfl rfl⟩

/-! Counting lemmas for the grid topology builder. -/

def swProj (e : SwitchEntry) : String × ℕ := (e.name, e.dpid)

theorem setPort_swProj (sw : List SwitchEntry) (nm pk : String) (v : ℕ) :
    (setPort sw nm pk v).map swProj = sw.map swProj := by
  unfold setPort
  rw [List.map_map]
  apply List.map_congr_left
  intro e _
  by_cases h : e.name = nm <;> simp [swProj, h]

theorem linkStep_hosts (st : GridState) (a b : String) :
    (linkStep st a b).hosts = st.hosts := rfl

theorem linkStep_swProj (st : GridState) (a b : String) :
    (linkStep st a b).switches.map swProj = st.switches.map swProj := by
  unfold linkStep
  simp [setPort_swProj]

theorem linkStep_links (st : GridState) (a b : String) :
    (linkStep st a b).links.length = st.links.length + 1 := by
  unfold linkStep
  simp

/-- Per-cell contribution of the nested grid loop to the links list. -/
def cellDelta (n i j : ℕ) : ℕ :=
  (if j < n - 1 then 1 else 0) + (if i < n - 1 then 1 else 0)

theorem gridCell_inv (n i j : ℕ) (st : GridState) :
    (gridCell n i j st).hosts = st.hosts ∧
    (gridCell n i j st).switches.map swProj = st.switches.map swProj ∧
    (gridCell n i j st).links.length = st.links.length + cellDelta n i j := by
  unfold gridCell cellDelta
  by_cases h1 : j < n - 1 <;> by_cases h2 : i < n - 1 <;>
    simp only [h1, h2, if_true, if_false] <;>
    refine ⟨by simp [linkStep_hosts], by simp [linkStep_swProj], ?_⟩ <;>
    simp [linkStep_links]

theorem gridRowAux_inv (n i : ℕ) :
    ∀ (l : List ℕ) (st : GridState),
      (l.foldl (fun st j => gridCell n i j st) st).hosts = st.hosts ∧
      (l.foldl (fun st j => gridCell n i j st) st).switches.map swProj = st.switches.map swProj ∧
      (l.foldl (fun st j => gridCell n i j st) st).links.length =
        st.links.length + (l.map (cellDelta n i)).sum := by
  intro l
  induction l with
  | nil => intro st; exact ⟨rfl, rfl, by simp⟩
  | cons j l ih =>
    intro st
    obtain ⟨hc1, hc2, hc3⟩ := gridCell_inv n i j st
    obtain ⟨ih1, ih2, ih3⟩ := ih (gridCell n i j st)
    refine ⟨by rw [List.foldl_cons, ih1, hc1], by rw [List.foldl_cons, ih2, hc2], ?_⟩
    rw [List.foldl_cons, ih3, hc3]
    simp
    omega

theorem gridPhaseAux_inv (n : ℕ) :
    ∀ (l : List ℕ) (st : GridState),
      (l.foldl (fun st i => gridRow n i st) st).hosts = st.hosts ∧
      (l.foldl (fun st i => gridRow n i st) st).switches.map swProj = st.switches.map swProj ∧
      (l.foldl (fun st i => gridRow n i st) st).links.length =
        st.links.length + (l.map (fun i => ((List.range n).map (cellDelta n i)).sum)).sum := by
  intro l
  induction l with
  | nil => intro st; exact ⟨rfl, rfl, by simp⟩
  | cons i l ih =>
    intro st
    obtain ⟨hr1, hr2, hr3⟩ := gridRowAux_inv n i (List.range n) st
    obtain ⟨ih1, ih2, ih3⟩ := ih (gridRow n i st)
    have hrow : gridRow n i st = (List.range n).foldl (fun st j => gridCell n i j st) st := rfl
    refine ⟨?_, ?_, ?_⟩
    · rw [List.foldl_cons, ih1, hrow, hr1]
    · rw [List.foldl_cons, ih2, hrow, hr2]
    · rw [List.foldl_cons, ih3, hrow, hr3]
      simp
      omega

theorem sum_indicator_range (n m : ℕ) :
    ((List.range n).map (fun j => if j < m then (1 : ℕ) else 0)).sum = min n m := by
  induction n with
  | zero => simp
  | succ n ih =>
    rw [List.range_succ, List.map_append, List.sum_append, ih]
    by_cases h : n < m <;> simp [h] <;> omega

theorem sum_map_add {α : Type} (l : List α) (f g : α → ℕ) :
    (l.map (fun x => f x + g x)).sum = (l.map f).sum + (l.map g).sum := by
  induction l with
  | nil => rfl
  | cons x l ih => simp [ih]; omega

theorem row_delta_sum (n i : ℕ) :
    ((List.range n).map (cellDelta n i)).sum = (n - 1) + n * (if i < n - 1 then 1 else 0) := by
  unfold cellDelta
  rw [sum_map_add (List.range n) (fun j => if j < n - 1 then 1 else 0)
      (fun _ => if i < n - 1 then 1 else 0)]
  rw [sum_indicator_range]
  have h2 : ((List.range n).map (fun _ => if i < n - 1 then (1 : ℕ) else 0)).sum =
      n * (if i < n - 1 then 1 else 0) := by
    simp [List.map_const']
  rw [h2]
  congr 1
  omega

theorem grid_delta_sum (n : ℕ) :
    ((List.range n).map (fun i => ((List.range n).map (cellDelta n i)).sum)).sum =
      2 * n * (n - 1) := by
  have h : ((List.range n).map (fun i => ((List.range n).map (cellDelta n i)).sum)).sum =
      ((List.range n).map (fun i => (n - 1) + n * (if i < n - 1 then 1 else 0))).sum := by
    apply congrArg
    apply List.map_congr_left
    intro i _
    exact row_delta_sum n i
  rw [h, sum_map_add (List.range n) (fun _ => n - 1)
      (fun i => n * (if i < n - 1 then 1 else 0))]
  have h1 : ((List.range n).map (fun _ => n - 1)).sum = n * (n - 1) := by
    simp [List.map_const']
  have h2 : ((List.range n).map (fun i => n * (if i < n - 1 then 1 else 0))).sum =
      n * (n - 1) := by
    have : (fun i => n * (if i < n - 1 then (1 : ℕ) else 0)) =
        (fun i => n * (if i < n - 1 then (1 : ℕ) else 0)) := rfl
    calc ((List.range n).map (fun i => n * (if i < n - 1 then (1 : ℕ) else 0))).sum
        = n * ((List.range n).map (fun i => if i < n - 1 then (1 : ℕ) else 0)).sum := by
          rw [← List.sum_map_mul_left]
      _ = n * min n (n - 1) := by rw [sum_indicator_range]
      _ = n * (n - 1) := by congr 1; omega
  rw [h1, h2]
  ring

theorem cornerStep_swProj (st : GridState) (h s : String) :
    (cornerStep st h s).switches.map swProj = st.switches.map swProj := by
  unfold cornerStep
  simp [setPort_swProj]

theorem cornerStep_links (st : GridState) (h s : String) :
    (cornerStep st h s).links.length = st.links.length + 1 := by
  unfold cornerStep
  simp

theorem cornerPhase_swProj (n : ℕ) (st : GridState) :
    (cornerPhase n st).switches.map swProj = st.switches.map swProj := by
  unfold cornerPhase corners
  simp only [List.foldl_cons, List.foldl_nil]
  simp [cornerStep_swProj]

theorem cornerPhase_links (n : ℕ) (st : GridState) :
    (cornerPhase n st).links.length = st.links.length + 4 := by
  unfold cornerPhase corners
  simp only [List.foldl_cons, List.foldl_nil]
  simp [cornerStep_links]

theorem corner_hosts_proj (n : ℕ) :
    (cornerPhase n (gridInit n)).hosts.map (fun h => (h.name, h.connected_to)) =
      [("h1", sName 1), ("h2", sName n),
       ("h3", sName (n * (n - 1) + 1)), ("h4", sName (n * n))] := rfl

/-- C8: the grid descriptor has exactly N² switch entries with dpids 1..N²,
exactly 4 host entries attached precisely to the four corner switches, and
4 + 2·N·(N−1) links. -/
theorem C8_grid_topology_info (n : ℕ) (hn : 2 ≤ n) :
    (gridTopologyInfo n).switches.length = n * n ∧
    (gridTopologyInfo n).switches.map swProj =
      (List.range (n * n)).map (fun i => (sName (i + 1), i + 1)) ∧
    (gridTopologyInfo n).hosts.map (fun h => (h.name, h.connected_to)) =
      [("h1", sName 1), ("h2", sName n),
       ("h3", sName (n * (n - 1) + 1)), ("h4", sName (n * n))] ∧
    (gridTopologyInfo n).links.length = 4 + 2 * n * (n - 1) := by
  have hTop : gridTopologyInfo n =
      (List.range n).foldl (fun st i => gridRow n i st) (cornerPhase n (gridInit n)) := rfl
  have hphase := gridPhaseAux_inv n (List.range n) (cornerPhase n (gridInit n))
  have hswinit : (gridInit n).switches.map swProj =
      (List.range (n * n)).map (fun i => (sName (i + 1), i + 1)) := by
    simp [gridInit, List.map_map, swProj, Function.comp]
  have hsw : (gridTopologyInfo n).switches.map swProj =
      (List.range (n * n)).map (fun i => (sName (i + 1), i + 1)) := by
    rw [hTop, hphase.2.1, cornerPhase_swProj, hswinit]
  refine ⟨?_, hsw, ?_, ?_⟩
  · have hlen := congrArg List.length hsw
    simpa using hlen
  · rw [hTop, hphase.1]
    exact corner_hosts_proj n
  · rw [hTop, hphase.2.2, grid_delta_sum, cornerPhase_links]
    have : (gridInit n).links.length = 0 := rfl
    omega

/-- C8 witness: the theorem applied at the smallest admissible grid size. -/
theorem C8_grid_topology_info_witness :
    2 ≤ 2 ∧
    ((gridTopologyInfo 2).switches.length = 2 * 2 ∧
     (gridTopologyInfo 2).switches.map swProj =
       (List.range (2 * 2)).map (fun i => (sName (i + 1), i + 1)) ∧
     (gridTopologyInfo 2).hosts.map (fun h => (h.name, h.connected_to)) =
       [("h1", sName 1), ("h2", sName 2),
        ("h3", sName (2 * (2 - 1) + 1)), ("h4", sName (2 * 2))] ∧
     (gridTopologyInfo 2).links.length = 4 + 2 * 2 * (2 - 1)) :=
  ⟨by decide, C8_grid_topology_info 2 (by decide)⟩

/-! Concrete parser inputs from the specification. -/

def portLineC6 : List Char :=
  "port  1: rx pkts=123, bytes=456, drop=0, errs=0, frame=0, over=0, crc=0, tx pkts=10, bytes=20, drop=1".data

def flowLineBare : List Char := "priority=10,n_packets=42,n_bytes=1000".data

def flowLineCont : List Char := "priority=10,n_packets=42,n_bytes=1000 actions=output:1".data

/-- C6 counterexample: on the literal spec line, port 1 is parsed but its
entry holds no key "rx_pkts" at all, so it cannot contain rx_pkts=123. -/
theorem C6_parse_port_stats_counterexample :
    (dlookup (1 : ℤ) (parsePortStats portLineC6)).isSome = true ∧
    Option.bind (dlookup (1 : ℤ) (parsePortStats portLineC6))
      (fun d => dlookup "rx_pkts".data d) = none := by
  constructor
  · decide
  · decide

/-- C6 amended: the receive segment keeps its leading "rx" label inside the
first comma token, so that token contributes the key "rx_rx pkts"; all other
tokens contribute rx_<key> or tx_<key> entries with integer values exactly
as claimed. -/
theorem C6_parse_port_stats_amended :
    parsePortStats portLineC6 =
      [(1, [("rx_rx pkts".data, 123), ("rx_bytes".data, 456), ("rx_drop".data, 0),
            ("rx_errs".data, 0), ("rx_frame".data, 0), ("rx_over".data, 0),
            ("rx_crc".data, 0), ("tx_pkts".data, 10), ("tx_bytes".data, 20),
            ("tx_drop".data, 1)])] := by decide

/-- C7 counterexample: on the exact line
priority=10,n_packets=42,n_bytes=1000 no comma or space follows the final
count, so the parsed record holds n_packets=42 but no n_bytes at all. -/
theorem C7_parse_flow_stats_counterexample :
    (parseFlowStats 0 flowLineBare).map (fun f => (f.n_packets, f.n_bytes)) =
      [(some 42, none)] := by decide

/-- C7 amended: the extraction rule (substring up to the next comma, or the
next space when no comma follows) recovers n_packets=42 and n_bytes=1000
only when some comma or space follows the n_bytes value, as in the line
extended with a field separator; on the bare line the n_bytes entry is
absent. -/
theorem C7_parse_flow_stats_amended :
    (parseFlowStats 7 flowLineCont).map (fun f => (f.n_packets, f.n_bytes)) =
      [(some 42, some 1000)] ∧
    (parseFlowStats 7 flowLineBare).map (fun f => (f.n_packets, f.n_bytes)) =
      [(some 42, none)] := by
  constructor
  · decide
  · decide

/-! C9: the performance report's per-series statistics. -/

theorem monStep_jitter (op : MonitorOp) (pm : PerfMetrics) :
    (monStep op pm).jitter_samples = pm.jitter_samples := by
  cases op <;> rfl

theorem monRun_foldl_jitter (ops : List MonitorOp) :
    ∀ pm : PerfMetrics,
      (ops.foldl (fun pm op => monStep op pm) pm).jitter_samples = pm.jitter_samples := by
  induction ops with
  | nil => intro pm; rfl
  | cons op ops ih =>
    intro pm
    rw [List.foldl_cons, ih, monStep_jitter]

theorem monRun_jitter (ops : List MonitorOp) : (monRun ops).jitter_samples = [] :=
  monRun_foldl_jitter ops monInit

/-- C9 counterexample: in a generated report the jitter series is summarized
by calculate_stats of the empty list, whose result carries no count key at
all — in particular not count 0. -/
theorem C9_perf_report_counterexample :
    (networkPerformance (monRun [])).lookup "jitter_ms" = some (calculateStats []) ∧
    (calculateStats ([] : List ℝ)).lookup "count" = none ∧
    (calculateStats ([] : List ℝ)).lookup "count" ≠ some 0 := by
  refine ⟨rfl, rfl, ?_⟩
  intro h
  rw [show (calculateStats ([] : List ℝ)).lookup "count" = none from rfl] at h
  cases h

/-- C9 amended: every reachable report summarizes the four series through
calculate_stats; the jitter series is always empty (no poller appends to
it), and an empty series is summarized as avg/min/max/std all zero with the
count key absent, while a non-empty series carries all five statistics
including its count. -/
theorem C9_perf_report_amended (ops : List MonitorOp) (l : List ℝ) (hl : l ≠ []) :
    (monRun ops).jitter_samples = [] ∧
    (networkPerformance (monRun ops)).lookup "jitter_ms" =
      some [("avg", 0), ("min", 0), ("max", 0), ("std", 0)] ∧
    (calculateStats ([] : List ℝ)).lookup "count" = none ∧
    (calculateStats l).map Prod.fst = ["avg", "min", "max", "std", "count"] ∧
    (calculateStats l).lookup "count" = some (l.length : ℝ) := by
  have hj := monRun_jitter ops
  refine ⟨hj, ?_, rfl, ?_, ?_⟩
  · have hlk : (networkPerformance (monRun ops)).lookup "jitter_ms" =
        some (calculateStats (monRun ops).jitter_samples) := rfl
    rw [hlk, hj]
    rfl
  · cases l with
    | nil => exact absurd rfl hl
    | cons x xs => rfl
  · cases l with
    | nil => exact absurd rfl hl
    | cons x xs => rfl

/-- C9 witness: the amended statement at a concrete run and series. -/
theorem C9_perf_report_amended_witness :
    ([(2 : ℝ)] ≠ []) ∧
    ((monRun [.pingLatency 1]).jitter_samples = [] ∧
     (networkPerformance (monRun [.pingLatency 1])).lookup "jitter_ms" =
       some [("avg", 0), ("min", 0), ("max", 0), ("std", 0)] ∧
     (calculateStats ([] : List ℝ)).lookup "count" = none ∧
     (calculateStats [(2 : ℝ)]).map Prod.fst = ["avg", "min", "max", "std", "count"] ∧
     (calculateStats [(2 : ℝ)]).lookup "count" = some (([(2 : ℝ)].length : ℝ))) :=
  ⟨by simp, C9_perf_report_amended [.pingLatency 1] [(2 : ℝ)] (by simp)⟩

end RlSdn
